import Mathlib

/-!
Verification of `scripts/generate_survey_visual.py` (CPAanalysis).

The script is a linear pipeline: load a CSV survey export, filter it to
completed responses, tally five question columns, and render proportional
stacked bars into an SVG document.  We embed each stage shallowly:

* a CSV row (a Python `dict` produced by `csv.DictReader`) becomes an
  association list `Row`; `dict.get` becomes `List.lookup`;
* `collections.Counter` over an iterable becomes a left fold that keeps
  keys in first-occurrence order, exactly as Python dicts do;
* Python's stable `sorted(..., key=...)` becomes Mathlib's stable
  `List.insertionSort` on the rank-key preorder;
* float arithmetic in the renderer is modelled over `ℚ` (the claims are
  about the exact values of the formulas);
* `summarize`'s `r[column]` lookup can raise `KeyError`, so the embedded
  `summarize` returns an `Option`, `none` modelling the raised error;
* the SVG fragments the renderer emits are modelled as abstract `SvgOp`
  values carrying the geometry and label data of each emitted element.
-/

/-- A parsed CSV row: a mapping from column name to cell text
(`csv.DictReader` yields a dict per row; keys are unique). -/
def Row : Type := List (String × String)

/-- Python's `str.strip()`: drop leading and trailing whitespace.  Defined
structurally over the character list so that proofs can evaluate it on
concrete strings. -/
def pyStrip (s : String) : String :=
  ⟨((s.data.dropWhile Char.isWhitespace).reverse.dropWhile Char.isWhitespace).reverse⟩

/-- Python truthiness of `r.get(k)`: `None` and `""` are falsy,
any other string is truthy. -/
def truthy : Option String → Bool
  | some v => v != ""
  | none => false

/-- The row filter of `load_rows`:
`r.get("ResponseId") and r.get("StartDate") != "Start Date" and
r.get("Finished") == "True"`. -/
def keepRow (r : Row) : Bool :=
  truthy (List.lookup "ResponseId" r)
    && (List.lookup "StartDate" r != some "Start Date")
    && (List.lookup "Finished" r == some "True")

/-- The loader `load_rows`, after CSV parsing: keep exactly the rows passing the
three-part filter. -/
def load_rows (rows : List Row) : List Row :=
  rows.filter keepRow

/-- The `ORDER` dict: rank 0–4 for the twenty known answer literals. -/
def ORDER : List (String × Nat) :=
  [("Very unlikely", 0),
   ("Somewhat unlikely", 1),
   ("Neither likely nor unlikely", 2),
   ("Somewhat likely", 3),
   ("Very likely", 4),
   ("Significantly decreased desire", 0),
   ("Decreased desire", 1),
   ("No change in desire", 2),
   ("Increased desire", 3),
   ("Significantly increased desire", 4),
   ("Very Negative", 0),
   ("Somewhat Negative", 1),
   ("Neutral", 2),
   ("Somewhat Positive", 3),
   ("Very Positive", 4),
   ("Not at all attractive", 0),
   ("Somewhat unattractive", 1),
   ("Neither attractive nor unattractive", 2),
   ("Somewhat attractive", 3),
   ("Very attractive", 4)]

/-- Lookup `ORDER.get(s, d)`. -/
def ORDERget (s : String) (d : Nat) : Nat :=
  (List.lookup s ORDER).getD d

/-- The sort key of `summarize`: `ORDER.get(kv[0], 999)`. -/
def rankKey (s : String) : Nat :=
  ORDERget s 999

/-- The `COLOR_SCALE` dict: rank to hex color. -/
def COLOR_SCALE : List (Nat × String) :=
  [(0, "#8b1e3f"), (1, "#d8576b"), (2, "#b0b7c3"), (3, "#58a4b0"), (4, "#1d7a8c")]

/-- Lookup `COLOR_SCALE.get(tone, "#6b778d")`. -/
def COLORget (tone : Nat) : String :=
  (List.lookup tone COLOR_SCALE).getD "#6b778d"

/-- One update step of `collections.Counter`: increment an existing key,
or append a fresh key at the end (Python dicts preserve insertion order,
so a key first seen later appears later in `counter.items()`). -/
def counterAdd (acc : List (String × Nat)) (s : String) : List (String × Nat) :=
  if acc.any (fun p => p.1 == s) then
    acc.map (fun p => if p.1 == s then (p.1, p.2 + 1) else p)
  else
    acc ++ [(s, 1)]

/-- Model of `Counter(iterable).items()`: (key, count) pairs in first-occurrence
order of the keys. -/
def counterItems (vals : List String) : List (String × Nat) :=
  vals.foldl counterAdd []

/-- The comparison underlying `sorted(counter.items(), key=lambda kv:
ORDER.get(kv[0], 999))`: compare entries by rank key. -/
def rankLe (p q : String × Nat) : Prop :=
  rankKey p.1 ≤ rankKey q.1

instance : DecidableRel rankLe := fun p q =>
  inferInstanceAs (Decidable (rankKey p.1 ≤ rankKey q.1))

instance : IsTotal (String × Nat) rankLe :=
  ⟨fun p q => Nat.le_total (rankKey p.1) (rankKey q.1)⟩

instance : IsTrans (String × Nat) rankLe :=
  ⟨fun _ _ _ h h' => Nat.le_trans h h'⟩

/-- The summarizer `summarize(rows, column)`.  `r[column]` raises `KeyError` when a row
lacks the column, modelled by returning `none`; on success it returns the
rank-ordered (answer, count) list (Python's `sorted` is stable, modelled
by the stable `List.insertionSort`) and the total of all counts. -/
def summarize (rows : List Row) (column : String) :
    Option (List (String × Nat) × Nat) :=
  match rows.mapM (fun r => List.lookup column r) with
  | none => none
  | some cells =>
    let counter := counterItems ((cells.map pyStrip).filter (fun s => s != ""))
    some (List.insertionSort rankLe counter, (counter.map Prod.snd).sum)

/-- The non-empty trimmed values of a column, in row order (the iterable
`r[column].strip() for r in rows if r[column].strip()` when no row lacks
the column). -/
def colVals (rows : List Row) (column : String) : List String :=
  ((rows.filterMap (fun r => List.lookup column r)).map pyStrip).filter
    (fun s => s != "")

/-- Percentage `pct = (count / total) * 100 if total else 0`. -/
def pctOf (total count : Nat) : ℚ :=
  if total ≠ 0 then ((count : ℚ) / (total : ℚ)) * 100 else 0

/-- Segment width `seg_w = max(1.0, chart_width * (count / total)) if total else 0`
with `chart_width = 780`. -/
def segWidth (total count : Nat) : ℚ :=
  if total ≠ 0 then max 1 ((780 : ℚ) * ((count : ℚ) / (total : ℚ))) else 0

/-- The ideal proportional segment width `chart_width * count / total`
before the 1-unit minimum floor of `segWidth` is applied. -/
def unflooredWidth (total count : Nat) : ℚ :=
  (780 : ℚ) * ((count : ℚ) / (total : ℚ))

/-- Label payload of an emitted `<text>` element: either an answer text
or a percentage value (rendered as `f"{pct:.1f}%"` in the source). -/
inductive SegText where
  | answer : String → SegText
  | percent : ℚ → SegText
deriving DecidableEq

/-- Abstract SVG elements emitted by the segment loop of `make_svg`:
`rect x y width height fill` and `text x y anchorMiddle fill content`. -/
inductive SvgOp where
  | rect : ℚ → ℚ → ℚ → ℚ → String → SvgOp
  | text : ℚ → ℚ → Bool → String → SegText → SvgOp
deriving DecidableEq

/-- The per-row segment loop of `make_svg`: starting from cursor `x`,
emit each segment's `<rect>` (height `bar_height = 46`, fill from
`COLOR_SCALE` via `ORDER.get(text, 2)`), then its labels — answer and
percentage centered inside when `seg_w > 115`, otherwise only the
percentage just right of the segment — and advance the cursor by
`seg_w`. -/
def renderSegs (total : Nat) (y : ℚ) : ℚ → List (String × Nat) → List SvgOp
  | _, [] => []
  | x, (t, c) :: rest =>
    SvgOp.rect x y (segWidth total c) 46 (COLORget (ORDERget t 2)) ::
      ((if 115 < segWidth total c then
          [SvgOp.text (x + segWidth total c / 2) (y + 21) true "#ffffff"
             (SegText.answer t),
           SvgOp.text (x + segWidth total c / 2) (y + 39) true "#ffffff"
             (SegText.percent (pctOf total c))]
        else
          [SvgOp.text (x + segWidth total c + 6) (y + 28) false "#334e68"
             (SegText.percent (pctOf total c))])
        ++ renderSegs total y (x + segWidth total c) rest)

/-- The five hard-coded question columns with their display labels. -/
def QUESTIONS : List (String × String) :=
  [("Q29", "Likelihood of pursuing CPA license"),
   ("Q51", "Alternative pathway\x27s impact on CPA desire"),
   ("Q52", "Alternative pathway\x27s impact on graduate degree desire"),
   ("Q6", "Overall perception of CPA pathway change"),
   ("Q25", "Attractiveness of shorter graduate certificate")]

/-- Placement of `make_svg`'s per-question row: row `i` sits at
`y = top_margin + i * row_gap = 170 + i * 140`, and its stacked bar
starts at `chart_left = 520`. -/
def renderRow (i : Nat) (entries : List (String × Nat)) (total : Nat) :
    List SvgOp :=
  renderSegs total (170 + 140 * (i : ℚ)) 520 entries

/-- The entry point `main`, from parsed CSV rows to the rendered bar rows: filter with
`load_rows`, summarize each of the five questions, render each summary at
its row index, and report `n = len(rows)`.  `none` models an uncaught
`KeyError` from `summarize`. -/
def pipeline (csvRows : List Row) : Option (List (List SvgOp) × Nat) :=
  let rows := load_rows csvRows
  match QUESTIONS.mapM (fun q => summarize rows q.1) with
  | none => none
  | some results =>
    some ((results.enum.map fun p => renderRow p.1 p.2.1 p.2.2), rows.length)

/-! ### Lemmas about the counter model -/

/-- Python truthiness, in propositional form. -/
theorem truthy_iff (o : Option String) :
    truthy o = true ↔ ∃ v, o = some v ∧ v ≠ "" := by
  cases o <;> simp [truthy]

theorem counterAdd_cond_iff (acc : List (String × Nat)) (s : String) :
    (acc.any fun p => p.1 == s) = true ↔ s ∈ acc.map Prod.fst := by
  simp [List.any_eq_true, List.mem_map]

theorem counterAdd_fst_of_mem {acc : List (String × Nat)} {s : String}
    (h : s ∈ acc.map Prod.fst) :
    (counterAdd acc s).map Prod.fst = acc.map Prod.fst := by
  rw [counterAdd, if_pos ((counterAdd_cond_iff acc s).mpr h), List.map_map]
  apply List.map_congr_left
  intro p _
  by_cases hp : p.1 = s <;> simp [hp]

theorem counterAdd_fst_of_not_mem {acc : List (String × Nat)} {s : String}
    (h : s ∉ acc.map Prod.fst) :
    (counterAdd acc s).map Prod.fst = acc.map Prod.fst ++ [s] := by
  rw [counterAdd, if_neg, List.map_append]
  simp only [List.map_cons, List.map_nil]
  intro hc
  exact h ((counterAdd_cond_iff acc s).mp hc)

theorem counterAdd_fst_nodup {acc : List (String × Nat)} {s : String}
    (h : (acc.map Prod.fst).Nodup) :
    ((counterAdd acc s).map Prod.fst).Nodup := by
  by_cases hm : s ∈ acc.map Prod.fst
  · rwa [counterAdd_fst_of_mem hm]
  · rw [counterAdd_fst_of_not_mem hm]
    simp [List.nodup_append, h, hm]

theorem map_snd_sum_incr (acc : List (String × Nat)) (s : String) :
    ((acc.map fun p => if p.1 == s then (p.1, p.2 + 1) else p).map Prod.snd).sum
      = (acc.map Prod.snd).sum + acc.countP (fun p => p.1 == s) := by
  induction acc with
  | nil => simp
  | cons p acc ih =>
    by_cases hp : p.1 = s
    · have hb : (p.1 == s) = true := by simp [hp]
      simp only [List.map_cons, List.sum_cons, List.countP_cons, hb, if_true,
        List.map_map] at ih ⊢
      omega
    · have hb : (p.1 == s) = false := by simp [hp]
      simp only [List.map_cons, List.sum_cons, List.countP_cons, hb,
        Bool.false_eq_true, if_false, List.map_map] at ih ⊢
      omega

theorem counterAdd_snd_sum {acc : List (String × Nat)} {s : String}
    (h : (acc.map Prod.fst).Nodup) :
    ((counterAdd acc s).map Prod.snd).sum = (acc.map Prod.snd).sum + 1 := by
  by_cases hm : s ∈ acc.map Prod.fst
  · rw [counterAdd, if_pos ((counterAdd_cond_iff acc s).mpr hm), map_snd_sum_incr]
    have hcount : acc.countP (fun p => p.1 == s) = 1 := by
      have : acc.countP (fun p => p.1 == s) = (acc.map Prod.fst).count s := by
        rw [List.count, List.countP_map]
        rfl
      rw [this, List.count_eq_one_of_mem h hm]
    rw [hcount]
  · rw [counterAdd, if_neg, List.map_append, List.sum_append]
    · simp
    · intro hc
      exact hm ((counterAdd_cond_iff acc s).mp hc)

theorem counterAdd_counts_pos {acc : List (String × Nat)} {s : String}
    (h : ∀ p ∈ acc, 1 ≤ p.2) :
    ∀ p ∈ counterAdd acc s, 1 ≤ p.2 := by
  intro p hp
  rw [counterAdd] at hp
  split at hp
  · obtain ⟨q, hq, rfl⟩ := List.mem_map.mp hp
    by_cases hqs : q.1 = s
    · have hb : (q.1 == s) = true := by simp [hqs]
      rw [if_pos hb]
      exact Nat.le_succ_of_le (h q hq)
    · have hb : (q.1 == s) = false := by simp [hqs]
      rw [if_neg (by simp [hb])]
      exact h q hq
  · rcases List.mem_append.mp hp with hq | hq
    · exact h p hq
    · simp at hq
      simp [hq]

theorem counterFold_fst_nodup (vals : List String) :
    ∀ acc : List (String × Nat), (acc.map Prod.fst).Nodup →
      ((vals.foldl counterAdd acc).map Prod.fst).Nodup := by
  induction vals with
  | nil => intro acc h; exact h
  | cons v vs ih =>
    intro acc h
    exact ih (counterAdd acc v) (counterAdd_fst_nodup h)

theorem counterFold_snd_sum (vals : List String) :
    ∀ acc : List (String × Nat), (acc.map Prod.fst).Nodup →
      ((vals.foldl counterAdd acc).map Prod.snd).sum
        = (acc.map Prod.snd).sum + vals.length := by
  induction vals with
  | nil => intro acc _; simp
  | cons v vs ih =>
    intro acc h
    rw [List.foldl_cons, ih (counterAdd acc v) (counterAdd_fst_nodup h),
      counterAdd_snd_sum h, List.length_cons]
    omega

theorem counterFold_counts_pos (vals : List String) :
    ∀ acc : List (String × Nat), (∀ p ∈ acc, 1 ≤ p.2) →
      ∀ p ∈ vals.foldl counterAdd acc, 1 ≤ p.2 := by
  induction vals with
  | nil => intro acc h; exact h
  | cons v vs ih =>
    intro acc h
    exact ih (counterAdd acc v) (counterAdd_counts_pos h)

theorem counterItems_fst_nodup (vals : List String) :
    ((counterItems vals).map Prod.fst).Nodup :=
  counterFold_fst_nodup vals [] (by simp)

theorem counterItems_snd_sum (vals : List String) :
    ((counterItems vals).map Prod.snd).sum = vals.length := by
  have := counterFold_snd_sum vals [] (by simp)
  simpa [counterItems] using this

theorem counterItems_counts_pos (vals : List String) :
    ∀ p ∈ counterItems vals, 1 ≤ p.2 :=
  counterFold_counts_pos vals [] (by simp)

/-! ### First-occurrence order of counter keys -/

/-- The first occurrences in `vs` of strings not in `seen`, in order. -/
def firstOccsNotIn (seen : List String) : List String → List String
  | [] => []
  | v :: vs =>
    if v ∈ seen then firstOccsNotIn seen vs
    else v :: firstOccsNotIn (v :: seen) vs

theorem firstOccsNotIn_congr (vs : List String) :
    ∀ seen₁ seen₂ : List String, (∀ s, s ∈ seen₁ ↔ s ∈ seen₂) →
      firstOccsNotIn seen₁ vs = firstOccsNotIn seen₂ vs := by
  induction vs with
  | nil => intro _ _ _; rfl
  | cons v vs ih =>
    intro seen₁ seen₂ h
    rw [firstOccsNotIn, firstOccsNotIn]
    by_cases hv : v ∈ seen₁
    · rw [if_pos hv, if_pos ((h v).mp hv)]
      exact ih seen₁ seen₂ h
    · rw [if_neg hv, if_neg (fun hc => hv ((h v).mpr hc))]
      refine congrArg _ (ih _ _ fun s => ?_)
      simp [h s]

theorem counterFold_fst_eq (vals : List String) :
    ∀ acc : List (String × Nat),
      (vals.foldl counterAdd acc).map Prod.fst =
        acc.map Prod.fst ++ firstOccsNotIn (acc.map Prod.fst) vals := by
  induction vals with
  | nil => intro acc; simp [firstOccsNotIn]
  | cons v vs ih =>
    intro acc
    rw [List.foldl_cons, ih (counterAdd acc v), firstOccsNotIn]
    by_cases hv : v ∈ acc.map Prod.fst
    · rw [counterAdd_fst_of_mem hv, if_pos hv]
    · rw [counterAdd_fst_of_not_mem hv, if_neg hv, List.append_assoc]
      refine congrArg _ (congrArg _ ?_)
      refine firstOccsNotIn_congr vs _ _ fun s => ?_
      simp [or_comm]

theorem mem_firstOccsNotIn (vs : List String) :
    ∀ seen s, s ∈ vs → s ∉ seen → s ∈ firstOccsNotIn seen vs := by
  induction vs with
  | nil => intro _ _ h; cases h
  | cons v vs ih =>
    intro seen s hs hns
    rw [firstOccsNotIn]
    by_cases hv : v ∈ seen
    · rw [if_pos hv]
      rcases List.mem_cons.mp hs with rfl | hs'
      · exact absurd hv hns
      · exact ih seen s hs' hns
    · rw [if_neg hv]
      rcases List.mem_cons.mp hs with rfl | hs'
      · exact List.mem_cons_self _ _
      · by_cases hsv : s = v
        · exact hsv ▸ List.mem_cons_self _ _
        · exact List.mem_cons_of_mem _
            (ih (v :: seen) s hs' (by simp [hsv, hns]))

theorem firstOccsNotIn_pair_sublist (vs : List String) :
    ∀ (seen : List String) (a b : String), a ≠ b → a ∉ seen → b ∉ seen →
      a ∈ vs → b ∈ vs → List.indexOf a vs < List.indexOf b vs →
      List.Sublist [a, b] (firstOccsNotIn seen vs) := by
  induction vs with
  | nil => intro _ _ _ _ _ _ ha; cases ha
  | cons v vs ih =>
    intro seen a b hab hans hbns ha hb hidx
    rw [firstOccsNotIn]
    by_cases hva : v = a
    · subst hva
      have hbv : b ≠ v := fun h => hab h.symm
      have hbvs : b ∈ vs := by
        rcases List.mem_cons.mp hb with h | h
        · exact absurd h hbv
        · exact h
      rw [if_neg hans]
      refine List.Sublist.cons₂ _ (List.singleton_sublist.mpr ?_)
      exact mem_firstOccsNotIn vs (v :: seen) b hbvs (by simp [hbv, hbns])
    · by_cases hvb : v = b
      · subst hvb
        rw [List.indexOf_cons_self] at hidx
        exact absurd hidx (Nat.not_lt_zero _)
      · have havs : a ∈ vs := by
          rcases List.mem_cons.mp ha with h | h
          · exact absurd h.symm hva
          · exact h
        have hbvs : b ∈ vs := by
          rcases List.mem_cons.mp hb with h | h
          · exact absurd h.symm hvb
          · exact h
        have hidx' : List.indexOf a vs < List.indexOf b vs := by
          rw [List.indexOf_cons_ne vs hva, List.indexOf_cons_ne vs hvb] at hidx
          omega
        by_cases hv : v ∈ seen
        · rw [if_pos hv]
          exact ih seen a b hab hans hbns havs hbvs hidx'
        · rw [if_neg hv]
          refine List.Sublist.cons _ ?_
          refine ih (v :: seen) a b hab ?_ ?_ havs hbvs hidx'
          · simp only [List.mem_cons, not_or]
            exact ⟨fun h => hva h.symm, hans⟩
          · simp only [List.mem_cons, not_or]
            exact ⟨fun h => hvb h.symm, hbns⟩

/-! ### Order and stability lemmas -/

/-- In a pairwise-`R`-ordered list, an element strictly below another
(`R p q` but not `R q p`) occurs strictly before it. -/
theorem pairwise_pair_sublist {α : Type} {R : α → α → Prop} :
    ∀ {l : List α} {p q : α}, l.Pairwise R → p ∈ l → q ∈ l →
      R p q → ¬ R q p → List.Sublist [p, q] l := by
  intro l
  induction l with
  | nil => intro p q _ hp; cases hp
  | cons x xs ih =>
    intro p q hpw hp hq hpq hqp
    have hx : ∀ y ∈ xs, R x y := fun y hy => List.rel_of_pairwise_cons hpw hy
    rcases List.mem_cons.mp hp with rfl | hp'
    · have hq' : q ∈ xs := by
        rcases List.mem_cons.mp hq with h | h
        · exact absurd (h ▸ hpq) (h ▸ hqp)
        · exact h
      exact List.Sublist.cons₂ _ (List.singleton_sublist.mpr hq')
    · rcases List.mem_cons.mp hq with rfl | hq'
      · exact absurd (hx p hp') hqp
      · exact List.Sublist.cons _ (ih hpw.of_cons hp' hq' hpq hqp)

/-- Lift a pair sublist on first components to a pair sublist of
entries. -/
theorem pair_sublist_of_fst {l : List (String × Nat)} {a b : String}
    (h : List.Sublist [a, b] (l.map Prod.fst)) :
    ∃ ca cb, List.Sublist [(a, ca), (b, cb)] l := by
  obtain ⟨l', hsub, hmap⟩ := List.sublist_map_iff.mp h
  rcases l' with _ | ⟨p, _ | ⟨q, _ | ⟨r, l''⟩⟩⟩ <;> simp at hmap
  obtain ⟨hpa, hqb⟩ := hmap
  subst hpa
  subst hqb
  exact ⟨p.2, q.2, hsub⟩

/-! ### mapM (the per-row column lookups) and summarize structure -/

theorem mapM_eq_some_filterMap {α β : Type} (f : α → Option β) :
    ∀ (l : List α) (ys : List β), l.mapM f = some ys → l.filterMap f = ys := by
  intro l
  induction l with
  | nil =>
    intro ys h
    simp only [List.mapM_nil, pure, Option.some.injEq] at h
    simp [← h]
  | cons a l ih =>
    intro ys h
    cases hfa : f a with
    | none =>
      rw [List.mapM_cons, hfa] at h
      simp at h
    | some b =>
      cases hml : l.mapM f with
      | none =>
        rw [List.mapM_cons, hfa, hml] at h
        simp at h
      | some bs =>
        rw [List.mapM_cons, hfa, hml] at h
        simp at h
        subst h
        simp [List.filterMap_cons, hfa, ih bs hml]

theorem mapM_eq_some_map {α β : Type} (f : α → Option β) (dflt : β) :
    ∀ (l : List α) (ys : List β), l.mapM f = some ys →
      ys = l.map (fun a => (f a).getD dflt) := by
  intro l
  induction l with
  | nil =>
    intro ys h
    simp only [List.mapM_nil, pure, Option.some.injEq] at h
    simp [← h]
  | cons a l ih =>
    intro ys h
    cases hfa : f a with
    | none =>
      rw [List.mapM_cons, hfa] at h
      simp at h
    | some b =>
      cases hml : l.mapM f with
      | none =>
        rw [List.mapM_cons, hfa, hml] at h
        simp at h
      | some bs =>
        rw [List.mapM_cons, hfa, hml] at h
        simp at h
        subst h
        rw [List.map_cons, ← ih bs hml]
        simp [hfa]

theorem mapM_isSome_of_forall {α β : Type} (f : α → Option β) :
    ∀ l : List α, (∀ a ∈ l, (f a).isSome) → ∃ ys, l.mapM f = some ys := by
  intro l
  induction l with
  | nil => intro _; exact ⟨[], by simp [List.mapM_nil]; rfl⟩
  | cons a l ih =>
    intro h
    obtain ⟨b, hb⟩ := Option.isSome_iff_exists.mp (h a (List.mem_cons_self a l))
    obtain ⟨bs, hbs⟩ := ih fun x hx => h x (List.mem_cons_of_mem a hx)
    exact ⟨b :: bs, by rw [List.mapM_cons, hb, hbs]; rfl⟩

/-- Structure of a successful `summarize` call: the ordered list is the
stable rank sort of the counter over the column's stripped non-empty
values, the total is the counter's count sum, and those values are the
per-row cell texts. -/
theorem summarize_spec {rows : List Row} {column : String}
    {ordered : List (String × Nat)} {total : Nat}
    (h : summarize rows column = some (ordered, total)) :
    ordered = List.insertionSort rankLe (counterItems (colVals rows column)) ∧
    total = ((counterItems (colVals rows column)).map Prod.snd).sum ∧
    colVals rows column =
      ((rows.map fun r => (List.lookup column r).getD "").map pyStrip).filter
        (fun s => s != "") := by
  rw [summarize] at h
  cases hm : rows.mapM (fun r => List.lookup column r) with
  | none => rw [hm] at h; cases h
  | some cells =>
    rw [hm] at h
    simp only [Option.some.injEq, Prod.mk.injEq] at h
    have hcol : colVals rows column =
        (cells.map pyStrip).filter (fun s => s != "") := by
      rw [colVals, mapM_eq_some_filterMap _ rows cells hm]
    have hcells : cells = rows.map fun r => (List.lookup column r).getD "" :=
      mapM_eq_some_map _ "" rows cells hm
    refine ⟨?_, ?_, ?_⟩
    · rw [hcol]; exact h.1.symm
    · rw [hcol]; exact h.2.symm
    · rw [hcol, hcells]

/-! ### Shared consequences of a successful summarize -/

/-- The counts in the ordered summary sum to the reported total (the sort
is a permutation of the counter). -/
theorem summarize_snd_sum {rows : List Row} {column : String}
    {ordered : List (String × Nat)} {total : Nat}
    (h : summarize rows column = some (ordered, total)) :
    (ordered.map Prod.snd).sum = total := by
  obtain ⟨hord, htot, -⟩ := summarize_spec h
  rw [hord, htot]
  exact ((List.perm_insertionSort rankLe _).map Prod.snd).sum_eq

/-- Every count in the ordered summary is at least 1. -/
theorem summarize_counts_ge_one {rows : List Row} {column : String}
    {ordered : List (String × Nat)} {total : Nat}
    (h : summarize rows column = some (ordered, total)) :
    ∀ e ∈ ordered, 1 ≤ e.2 := by
  obtain ⟨hord, -, -⟩ := summarize_spec h
  intro e he
  rw [hord] at he
  exact counterItems_counts_pos (colVals rows column) e
    ((List.perm_insertionSort rankLe _).mem_iff.mp he)

/-- The total is zero exactly when the summary has no entries. -/
theorem summarize_total_zero_iff {rows : List Row} {column : String}
    {ordered : List (String × Nat)} {total : Nat}
    (h : summarize rows column = some (ordered, total)) :
    total = 0 ↔ ordered = [] := by
  constructor
  · intro h0
    obtain ⟨hord, htot, -⟩ := summarize_spec h
    have hcz : counterItems (colVals rows column) = [] := by
      cases hc : counterItems (colVals rows column) with
      | nil => rfl
      | cons p ps =>
        have hp := counterItems_counts_pos (colVals rows column) p
          (by rw [hc]; exact List.mem_cons_self _ _)
        rw [hc, h0] at htot
        simp at htot
        omega
    rw [hord, hcz]
    rfl
  · intro he
    have hs := summarize_snd_sum h
    rw [he] at hs
    simpa using hs.symm

/-! ### The claims -/

/-- C1: the loader retains a row iff its ResponseId is present and
non-empty, its StartDate is not the literal "Start Date", and its
Finished field equals "True"; all other rows are excluded. -/
theorem load_rows_mem_iff (rows : List Row) (r : Row) :
    r ∈ load_rows rows ↔
      r ∈ rows ∧ (∃ v, List.lookup "ResponseId" r = some v ∧ v ≠ "") ∧
        List.lookup "StartDate" r ≠ some "Start Date" ∧
        List.lookup "Finished" r = some "True" := by
  simp [load_rows, List.mem_filter, keepRow, truthy_iff, and_assoc]

/-- C2 counterexample: `summarize` does not degrade silently on a missing
column — `r[column]` raises `KeyError` (modelled as `none`) as soon as a
row lacks the column. -/
theorem summarize_missing_column_raises :
    summarize ([[("Q1", "x")]] : List Row) "Q29" = none := by decide

/-- C2 (amended): the defensive defaults cover unknown answer ranks and
zero totals, but not a missing column; `summarize` returns a summary and
total only when every row carries the column key (in particular for an
empty row sequence). -/
theorem summarize_defensive_when_columns_present (rows : List Row)
    (column : String) (h : ∀ r ∈ rows, (List.lookup column r).isSome) :
    ∃ ordered total, summarize rows column = some (ordered, total) := by
  obtain ⟨cells, hc⟩ := mapM_isSome_of_forall _ rows h
  have hc' : List.mapM.loop (fun r => List.lookup column r) rows [] = some cells :=
    hc
  have hs : summarize rows column =
      some (List.insertionSort rankLe
          (counterItems ((cells.map pyStrip).filter (fun s => s != ""))),
        ((counterItems ((cells.map pyStrip).filter
            (fun s => s != ""))).map Prod.snd).sum) := by
    simp [summarize, hc, hc']
  exact ⟨_, _, hs⟩

/-- C2 witness: a concrete row sequence whose rows all carry the column. -/
theorem summarize_defensive_when_columns_present_witness :
    ∃ ordered total,
      summarize ([[("Q29", "x")]] : List Row) "Q29" = some (ordered, total) :=
  summarize_defensive_when_columns_present [[("Q29", "x")]] "Q29" (by decide)

/-- C3: the total equals the number of rows with a non-empty stripped
value in the column, and equals the sum of the counts in the summary. -/
theorem summarize_total_eq_counts (rows : List Row) (column : String)
    (ordered : List (String × Nat)) (total : Nat)
    (h : summarize rows column = some (ordered, total)) :
    total = rows.countP
        (fun r => pyStrip ((List.lookup column r).getD "") != "") ∧
      total = (ordered.map Prod.snd).sum := by
  refine ⟨?_, (summarize_snd_sum h).symm⟩
  obtain ⟨-, htot, hvals⟩ := summarize_spec h
  rw [htot, counterItems_snd_sum, hvals, List.map_map,
    ← List.countP_eq_length_filter, List.countP_map]
  rfl

/-- C3 witness: two rows, one blank after stripping. -/
theorem summarize_total_eq_counts_witness :
    (1 : Nat) = List.countP
        (fun r => pyStrip ((List.lookup "Q29" r).getD "") != "")
        ([[("Q29", " Very likely ")], [("Q29", " ")]] : List Row) ∧
      (1 : Nat) = (([("Very likely", 1)] : List (String × Nat)).map Prod.snd).sum :=
  summarize_total_eq_counts [[("Q29", " Very likely ")], [("Q29", " ")]] "Q29"
    [("Very likely", 1)] 1 (by decide)

theorem lookup_mem_snd {α β : Type} [BEq α] {a : α} {b : β} :
    ∀ {l : List (α × β)}, List.lookup a l = some b → b ∈ l.map Prod.snd := by
  intro l
  induction l with
  | nil => intro h; cases h
  | cons p l ih =>
    intro h
    obtain ⟨k, v⟩ := p
    by_cases hk : (a == k) = true
    · rw [List.lookup, hk] at h
      simp only [Option.some.injEq] at h
      subst h
      exact List.mem_cons_self _ _
    · rw [List.lookup, Bool.of_not_eq_true hk] at h
      exact List.mem_cons_of_mem _ (ih h)

/-- Every rank stored in the `ORDER` table is below the fallback key
999, so mapped answers always sort before unmapped ones. -/
theorem ORDER_lookup_lt (s : String) (r : Nat)
    (h : List.lookup s ORDER = some r) : r < 999 := by
  have hr : r ∈ ORDER.map Prod.snd := lookup_mem_snd h
  have hall : ∀ v ∈ ORDER.map Prod.snd, v < 999 := by decide
  exact hall r hr

/-- C4: in the ordered summary, an answer with a lower `ORDER` rank
appears strictly before one with a higher rank, and a rank-table answer
appears strictly before any answer absent from the table (fallback key
999), regardless of counts. -/
theorem summarize_rank_order (rows : List Row) (column : String)
    (ordered : List (String × Nat)) (total : Nat) (a b : String)
    (ca cb : Nat) (h : summarize rows column = some (ordered, total))
    (ha : (a, ca) ∈ ordered) (hb : (b, cb) ∈ ordered)
    (hrank : (∃ ra rb, List.lookup a ORDER = some ra ∧
        List.lookup b ORDER = some rb ∧ ra < rb) ∨
      ((List.lookup a ORDER).isSome ∧ List.lookup b ORDER = none)) :
    List.Sublist [(a, ca), (b, cb)] ordered := by
  obtain ⟨hord, -, -⟩ := summarize_spec h
  have hlt : rankKey a < rankKey b := by
    rcases hrank with ⟨ra, rb, hra, hrb, hlt⟩ | ⟨hsome, hnone⟩
    · simpa [rankKey, ORDERget, hra, hrb] using hlt
    · obtain ⟨ra, hra⟩ := Option.isSome_iff_exists.mp hsome
      have hlt999 := ORDER_lookup_lt a ra hra
      simpa [rankKey, ORDERget, hra, hnone] using hlt999
  have hsorted : List.Pairwise rankLe ordered := by
    rw [hord]
    exact List.sorted_insertionSort rankLe _
  exact pairwise_pair_sublist hsorted ha hb (Nat.le_of_lt hlt)
    (fun hc => absurd hlt (by simpa [rankLe] using Nat.not_lt.mpr hc))

/-- C4 witness: "Very unlikely" (rank 0) sorts before "Very likely"
(rank 4). -/
theorem summarize_rank_order_witness :
    List.Sublist [(("Very unlikely" : String), (1 : Nat)), ("Very likely", 1)]
      [("Very unlikely", 1), ("Very likely", 1)] :=
  summarize_rank_order [[("Q29", "Very likely")], [("Q29", "Very unlikely")]]
    "Q29" [("Very unlikely", 1), ("Very likely", 1)] 2
    "Very unlikely" "Very likely" 1 1 (by decide) (by decide) (by decide)
    (Or.inl ⟨0, 4, by decide, by decide, by decide⟩)

/-- C5: a zero-total summary is empty, the guarded percentage and width
formulas return 0 for any count, and the segment loop emits nothing. -/
theorem summarize_zero_total_renders_nothing (rows : List Row)
    (column : String) (entries : List (String × Nat)) (total : Nat)
    (h : summarize rows column = some (entries, total)) (h0 : total = 0) :
    entries = [] ∧ (∀ c, pctOf total c = 0 ∧ segWidth total c = 0) ∧
      ∀ y x, renderSegs total y x entries = [] := by
  have he : entries = [] := (summarize_total_zero_iff h).mp h0
  subst h0
  exact ⟨he, fun c => ⟨by simp [pctOf], by simp [segWidth]⟩,
    fun y x => by rw [he]; rfl⟩

/-- C5 witness: a row whose only answer is blank after stripping. -/
theorem summarize_zero_total_renders_nothing_witness :
    ([] : List (String × Nat)) = [] ∧
      (∀ c, pctOf 0 c = 0 ∧ segWidth 0 c = 0) ∧
      ∀ y x, renderSegs 0 y x ([] : List (String × Nat)) = [] :=
  summarize_zero_total_renders_nothing [[("Q29", " ")]] "Q29" [] 0
    (by decide) rfl

/-- C6: for a summary with positive total, the unfloored proportional
segment widths `chart_width * count / total` sum to exactly the chart
width 780, and each rendered width is the unfloored width clamped below
by 1. -/
theorem segment_width_sum (rows : List Row) (column : String)
    (entries : List (String × Nat)) (total : Nat)
    (h : summarize rows column = some (entries, total)) (h0 : total ≠ 0) :
    ((entries.map fun e => unflooredWidth total e.2).sum = 780) ∧
      ∀ e ∈ entries, segWidth total e.2 = max 1 (unflooredWidth total e.2) := by
  refine ⟨?_, fun e _ => by simp [segWidth, unflooredWidth, h0]⟩
  have hT : ((total : ℚ)) ≠ 0 := Nat.cast_ne_zero.mpr h0
  have h1 : (entries.map fun e => unflooredWidth total e.2)
      = entries.map fun e => ((780 : ℚ) / (total : ℚ)) * (e.2 : ℚ) := by
    refine List.map_congr_left fun e _ => ?_
    rw [unflooredWidth, div_mul_eq_mul_div, ← mul_div_assoc]
  have h2 : (entries.map fun e => ((e.2 : Nat) : ℚ)).sum = (total : ℚ) := by
    have hm : (entries.map fun e => ((e.2 : Nat) : ℚ))
        = (entries.map Prod.snd).map (fun n : Nat => (n : ℚ)) := by
      rw [List.map_map]
      rfl
    rw [hm, ← Nat.cast_list_sum, summarize_snd_sum h]
  rw [h1, List.sum_map_mul_left, h2, div_mul_cancel₀ _ hT]

/-- C6 witness: one answer with the whole total takes the full 780. -/
theorem segment_width_sum_witness :
    ((([("Very likely", 1)] : List (String × Nat)).map
        fun e => unflooredWidth 1 e.2).sum = 780) ∧
      ∀ e ∈ ([("Very likely", 1)] : List (String × Nat)),
        segWidth 1 e.2 = max 1 (unflooredWidth 1 e.2) :=
  segment_width_sum [[("Q29", "Very likely")]] "Q29" [("Very likely", 1)] 1
    (by decide) (by decide)

/-- C8: the pipeline is a pure function of the parsed input rows, so two
runs on the same input produce identical outputs. -/
theorem pipeline_deterministic (input : List Row) :
    pipeline input = pipeline input := rfl

/-- C9: answers with equal rank keys (e.g. both absent from the rank
table) appear in the ordered summary in order of their first occurrence
among the column's stripped non-empty values: counting preserves
first-occurrence order and the sort is stable. -/
theorem summarize_tie_order_stable (rows : List Row) (column : String)
    (ordered : List (String × Nat)) (total : Nat) (a b : String)
    (h : summarize rows column = some (ordered, total)) (hab : a ≠ b)
    (hk : rankKey a = rankKey b)
    (ha : a ∈ colVals rows column) (hb : b ∈ colVals rows column)
    (hidx : List.indexOf a (colVals rows column)
      < List.indexOf b (colVals rows column)) :
    List.Sublist [a, b] (ordered.map Prod.fst) := by
  obtain ⟨hord, -, -⟩ := summarize_spec h
  have hkeys : (counterItems (colVals rows column)).map Prod.fst
      = firstOccsNotIn [] (colVals rows column) := by
    have hf := counterFold_fst_eq (colVals rows column) []
    simpa [counterItems] using hf
  have hpair : List.Sublist [a, b]
      ((counterItems (colVals rows column)).map Prod.fst) := by
    rw [hkeys]
    exact firstOccsNotIn_pair_sublist _ [] a b hab (by simp) (by simp)
      ha hb hidx
  obtain ⟨ca, cb, hsub⟩ := pair_sublist_of_fst hpair
  have hstable : List.Sublist [(a, ca), (b, cb)] ordered := by
    rw [hord]
    exact List.pair_sublist_insertionSort (by simp [rankLe, hk]) hsub
  simpa using List.Sublist.map Prod.fst hstable

/-- C9 witness: two answers outside the rank table keep their
first-occurrence order. -/
theorem summarize_tie_order_stable_witness :
    List.Sublist ["foo", "bar"] ["foo", "bar"] :=
  summarize_tie_order_stable [[("Q29", "foo")], [("Q29", "bar")]] "Q29"
    [("foo", 1), ("bar", 1)] 2 "foo" "bar" (by decide) (by decide)
    (by decide) (by decide) (by decide) (by decide)

/-- C10: every listed count is at least 1, the total is zero exactly when
the summary is empty, and a rendered row has no segments exactly when its
total is zero. -/
theorem summarize_counts_pos_total_zero (rows : List Row) (column : String)
    (ordered : List (String × Nat)) (total : Nat)
    (h : summarize rows column = some (ordered, total)) :
    (∀ e ∈ ordered, 1 ≤ e.2) ∧ (total = 0 ↔ ordered = []) ∧
      ∀ y x, (renderSegs total y x ordered = [] ↔ total = 0) := by
  refine ⟨summarize_counts_ge_one h, summarize_total_zero_iff h,
    fun y x => ⟨?_, ?_⟩⟩
  · intro hr
    cases ho : ordered with
    | nil => exact (summarize_total_zero_iff h).mpr ho
    | cons e es =>
      obtain ⟨t, c⟩ := e
      rw [ho] at hr
      simp [renderSegs] at hr
  · intro h0
    rw [(summarize_total_zero_iff h).mp h0]
    rfl

/-- C10 witness: a one-answer summary with total 1. -/
theorem summarize_counts_pos_total_zero_witness :
    (∀ e ∈ ([("Very likely", 1)] : List (String × Nat)), 1 ≤ e.2) ∧
      ((1 : Nat) = 0 ↔ ([("Very likely", 1)] : List (String × Nat)) = []) ∧
      ∀ y x, (renderSegs 1 y x [("Very likely", 1)] = [] ↔ (1 : Nat) = 0) :=
  summarize_counts_pos_total_zero [[("Q29", "Very likely")]] "Q29"
    [("Very likely", 1)] 1 (by decide)

/-! ### Label placement in the segment loop -/

theorem renderSegs_text_inside (total : Nat) (y : ℚ) :
    ∀ (entries : List (String × Nat)) (x tx ty : ℚ) (fill : String)
      (content : SegText),
      SvgOp.text tx ty true fill content ∈ renderSegs total y x entries →
      ∃ rx w col, SvgOp.rect rx y w 46 col ∈ renderSegs total y x entries ∧
        115 < w ∧ tx = rx + w / 2 := by
  intro entries
  induction entries with
  | nil =>
    intro x tx ty fill content h
    simp [renderSegs] at h
  | cons e rest ih =>
    intro x tx ty fill content h
    obtain ⟨t, c⟩ := e
    simp only [renderSegs] at h
    rcases List.mem_cons.mp h with heq | h'
    · simp at heq
    · rcases List.mem_append.mp h' with hl | hr
      · by_cases hw : 115 < segWidth total c
        · rw [if_pos hw] at hl
          refine ⟨x, segWidth total c, COLORget (ORDERget t 2), ?_, hw, ?_⟩
          · simp only [renderSegs]
            exact List.mem_cons_self _ _
          · simp only [List.mem_cons, List.not_mem_nil, or_false] at hl
            rcases hl with hA | hB
            · simp only [SvgOp.text.injEq] at hA
              exact hA.1
            · simp only [SvgOp.text.injEq] at hB
              exact hB.1
        · rw [if_neg hw] at hl
          simp only [List.mem_cons, List.not_mem_nil, or_false] at hl
          simp only [SvgOp.text.injEq] at hl
          exact absurd hl.2.2.1 (by simp)
      · obtain ⟨rx, w, col, hmem, hw', htx⟩ :=
          ih (x + segWidth total c) tx ty fill content hr
        refine ⟨rx, w, col, ?_, hw', htx⟩
        simp only [renderSegs]
        exact List.mem_cons_of_mem _ (List.mem_append_right _ hmem)

theorem renderSegs_text_outside (total : Nat) (y : ℚ) :
    ∀ (entries : List (String × Nat)) (x tx ty : ℚ) (fill : String)
      (content : SegText),
      SvgOp.text tx ty false fill content ∈ renderSegs total y x entries →
      ∃ rx w col, SvgOp.rect rx y w 46 col ∈ renderSegs total y x entries ∧
        w ≤ 115 ∧ tx = rx + w + 6 ∧ ∃ p, content = SegText.percent p := by
  intro entries
  induction entries with
  | nil =>
    intro x tx ty fill content h
    simp [renderSegs] at h
  | cons e rest ih =>
    intro x tx ty fill content h
    obtain ⟨t, c⟩ := e
    simp only [renderSegs] at h
    rcases List.mem_cons.mp h with heq | h'
    · simp at heq
    · rcases List.mem_append.mp h' with hl | hr
      · by_cases hw : 115 < segWidth total c
        · rw [if_pos hw] at hl
          simp only [List.mem_cons, List.not_mem_nil, or_false] at hl
          rcases hl with hA | hB
          · simp only [SvgOp.text.injEq] at hA
            exact absurd hA.2.2.1 (by simp)
          · simp only [SvgOp.text.injEq] at hB
            exact absurd hB.2.2.1 (by simp)
        · rw [if_neg hw] at hl
          simp only [List.mem_cons, List.not_mem_nil, or_false] at hl
          simp only [SvgOp.text.injEq] at hl
          refine ⟨x, segWidth total c, COLORget (ORDERget t 2), ?_,
            le_of_not_lt hw, hl.1, pctOf total c, hl.2.2.2.2⟩
          simp only [renderSegs]
          exact List.mem_cons_self _ _
      · obtain ⟨rx, w, col, hmem, hw', htx, hp⟩ :=
          ih (x + segWidth total c) tx ty fill content hr
        refine ⟨rx, w, col, ?_, hw', htx, hp⟩
        simp only [renderSegs]
        exact List.mem_cons_of_mem _ (List.mem_append_right _ hmem)

theorem renderSegs_rect_labels (total : Nat) (y : ℚ) :
    ∀ (entries : List (String × Nat)) (x rx w hh : ℚ) (col : String),
      SvgOp.rect rx y w hh col ∈ renderSegs total y x entries →
      (115 < w →
        (∃ t, SvgOp.text (rx + w / 2) (y + 21) true "#ffffff"
            (SegText.answer t) ∈ renderSegs total y x entries) ∧
        ∃ p, SvgOp.text (rx + w / 2) (y + 39) true "#ffffff"
            (SegText.percent p) ∈ renderSegs total y x entries) ∧
      (¬ 115 < w →
        ∃ p, SvgOp.text (rx + w + 6) (y + 28) false "#334e68"
            (SegText.percent p) ∈ renderSegs total y x entries) := by
  intro entries
  induction entries with
  | nil =>
    intro x rx w hh col h
    simp [renderSegs] at h
  | cons e rest ih =>
    intro x rx w hh col h
    obtain ⟨t, c⟩ := e
    simp only [renderSegs] at h
    rcases List.mem_cons.mp h with heq | h'
    · simp only [SvgOp.rect.injEq] at heq
      obtain ⟨hrx, -, hw, -, -⟩ := heq
      subst hrx
      subst hw
      constructor
      · intro h115
        constructor
        · refine ⟨t, ?_⟩
          simp only [renderSegs]
          rw [if_pos h115]
          exact List.mem_cons_of_mem _
            (List.mem_append_left _ (List.mem_cons_self _ _))
        · refine ⟨pctOf total c, ?_⟩
          simp only [renderSegs]
          rw [if_pos h115]
          exact List.mem_cons_of_mem _ (List.mem_append_left _
            (List.mem_cons_of_mem _ (List.mem_cons_self _ _)))
      · intro h115
        refine ⟨pctOf total c, ?_⟩
        simp only [renderSegs]
        rw [if_neg h115]
        exact List.mem_cons_of_mem _
          (List.mem_append_left _ (List.mem_cons_self _ _))
    · rcases List.mem_append.mp h' with hl | hr
      · exfalso
        by_cases hw' : 115 < segWidth total c
        · rw [if_pos hw'] at hl
          simp at hl
        · rw [if_neg hw'] at hl
          simp at hl
      · have hres := ih (x + segWidth total c) rx w hh col hr
        constructor
        · intro h115
          obtain ⟨⟨t', ht'⟩, ⟨p', hp'⟩⟩ := hres.1 h115
          constructor
          · refine ⟨t', ?_⟩
            simp only [renderSegs]
            exact List.mem_cons_of_mem _ (List.mem_append_right _ ht')
          · refine ⟨p', ?_⟩
            simp only [renderSegs]
            exact List.mem_cons_of_mem _ (List.mem_append_right _ hp')
        · intro h115
          obtain ⟨p', hp'⟩ := hres.2 h115
          refine ⟨p', ?_⟩
          simp only [renderSegs]
          exact List.mem_cons_of_mem _ (List.mem_append_right _ hp')

/-- C7: label placement bifurcates on the computed segment width: every
centered (anchor-middle) label sits at the midpoint of a segment wider
than 115 units; every left-anchored label is a percentage placed 6 units
right of a segment at most 115 units wide; and conversely every segment
gets the answer plus percentage inside when wider than 115 units, and
only the percentage outside otherwise. -/
theorem segment_label_bifurcation :
    (∀ (total : Nat) (y : ℚ) (entries : List (String × Nat))
      (x tx ty : ℚ) (fill : String) (content : SegText),
      SvgOp.text tx ty true fill content ∈ renderSegs total y x entries →
      ∃ rx w col, SvgOp.rect rx y w 46 col ∈ renderSegs total y x entries ∧
        115 < w ∧ tx = rx + w / 2) ∧
    (∀ (total : Nat) (y : ℚ) (entries : List (String × Nat))
      (x tx ty : ℚ) (fill : String) (content : SegText),
      SvgOp.text tx ty false fill content ∈ renderSegs total y x entries →
      ∃ rx w col, SvgOp.rect rx y w 46 col ∈ renderSegs total y x entries ∧
        w ≤ 115 ∧ tx = rx + w + 6 ∧ ∃ p, content = SegText.percent p) ∧
    (∀ (total : Nat) (y : ℚ) (entries : List (String × Nat))
      (x rx w hh : ℚ) (col : String),
      SvgOp.rect rx y w hh col ∈ renderSegs total y x entries →
      (115 < w →
        (∃ t, SvgOp.text (rx + w / 2) (y + 21) true "#ffffff"
            (SegText.answer t) ∈ renderSegs total y x entries) ∧
        ∃ p, SvgOp.text (rx + w / 2) (y + 39) true "#ffffff"
            (SegText.percent p) ∈ renderSegs total y x entries) ∧
      (¬ 115 < w →
        ∃ p, SvgOp.text (rx + w + 6) (y + 28) false "#334e68"
            (SegText.percent p) ∈ renderSegs total y x entries)) :=
  ⟨fun total y => renderSegs_text_inside total y,
   fun total y => renderSegs_text_outside total y,
   fun total y => renderSegs_rect_labels total y⟩

/-- C7 witness: a full-width (780 > 115) segment carries a centered
inside label. -/
theorem segment_label_bifurcation_witness :
    ∃ rx w col,
      SvgOp.rect rx 0 w 46 col ∈ renderSegs 1 0 520 [("Very likely", 1)] ∧
        115 < w ∧ 520 + segWidth 1 1 / 2 = rx + w / 2 := by
  have hw : segWidth 1 1 = 780 := by simp [segWidth]
  have h115 : (115 : ℚ) < segWidth 1 1 := by
    rw [hw]
    decide
  refine segment_label_bifurcation.1 1 0 [("Very likely", 1)] 520
    (520 + segWidth 1 1 / 2) (0 + 21) "#ffffff"
    (SegText.answer "Very likely") ?_
  simp only [renderSegs]
  rw [if_pos h115]
  exact List.mem_cons_of_mem _
    (List.mem_append_left _ (List.mem_cons_self _ _))
